import Mathlib

/-!
Shallow embedding of the artale-broadcast-bot subscription engine, feed
listener and fan-out dispatcher (TypeScript sources:
`src/subscriber/subscriber.service.ts`, `src/database/database.service.ts`,
the `WebSocketService` in `src/websocket/websocket.service.ts`).

Conventions of the embedding:
* TypeScript arrays become `List`; a JavaScript `Map`/`Set` (which iterate
  in insertion order) become association lists / duplicate-free lists with
  insertion-order append.
* `String.prototype.toLowerCase()` is modelled as per-character simple
  lowercasing (`Char.toLower`); the two agree on the ASCII and CJK
  characters exercised here.
* The MongoDB-backed store is modelled per user as an
  `Option SubscriberConfig` together with an explicit list of store
  operations (`StoreOp`) so that frame conditions ("no write happened",
  "the write reused the stored channelId") are visible.
* The `async` plumbing is dropped: every handler in the source runs its
  pure logic to completion between awaits, and the awaited database calls
  are exactly the `StoreOp`s we record.
-/

namespace ArtaleBot

/-- One entry of `keywordFilters` (schema `KeywordFilter`:
`{keyword: string, messageTypes: string[]}`). -/
structure KeywordFilter where
  keyword : String
  messageTypes : List String
  deriving Repr, DecidableEq

/-- A persisted subscriber record as held by `DatabaseService`
(`{channelId, keywordFilters}` keyed by `userId`). -/
structure SubscriberConfig where
  channelId : String
  keywordFilters : List KeywordFilter
  deriving Repr, DecidableEq

/-- Model of `String.prototype.toLowerCase()`: per-character simple
lowercasing. -/
def strLower (s : String) : String :=
  ⟨s.data.map Char.toLower⟩

/-- The lower-cased keyword of a filter (the merge and removal code always
compares `filter.keyword.toLowerCase()`). -/
def lowerKw (f : KeywordFilter) : String :=
  strLower f.keyword

/-- JavaScript `Set.prototype.add` on an insertion-ordered set: append the
element if it is not already present. -/
def setAdd (s : List String) (x : String) : List String :=
  if x ∈ s then s else s ++ [x]

/-- Adding a whole list of elements to an insertion-ordered set
(`forEach(type => set.add(type))`). -/
def setAddAll (s : List String) (ts : List String) : List String :=
  ts.foldl setAdd s

/-- The accumulator of `mergeKeywordFilters`: the JS
`Map<string, Set<string>>` from lower-cased keyword to the
insertion-ordered set of message types, as an association list. -/
abbrev KeywordMap := List (String × List String)

/-- `Map.prototype.set` when the key is already present: replace the value
in place (iteration order of a JS `Map` keeps the original position). -/
def mapSet (m : KeywordMap) (k : String) (v : List String) : KeywordMap :=
  match m with
  | [] => [(k, v)]
  | (k', v') :: rest =>
      if k' = k then (k, v) :: rest else (k', v') :: mapSet rest k v

/-- One `forEach` step of the accumulator-building loops of
`mergeKeywordFilters`: ensure the lower-cased keyword has an entry, then add
every message type of the filter to its set. -/
def addFilterToMap (m : KeywordMap) (f : KeywordFilter) : KeywordMap :=
  match m.lookup (lowerKw f) with
  | none => m ++ [(lowerKw f, setAddAll [] f.messageTypes)]
  | some ts => mapSet m (lowerKw f) (setAddAll ts f.messageTypes)

/-- The two accumulator-building loops of `mergeKeywordFilters` (first over
`existing`, then over `newFilters`), as one fold over the concatenation. -/
def buildMap (fs : List KeywordFilter) : KeywordMap :=
  fs.foldl addFilterToMap []

/-- The two output loops of `mergeKeywordFilters`: walk the filters in
order, skip lower-cased keywords already processed, and emit the original
casing together with the accumulated type set. -/
def outputPass (m : KeywordMap) : List KeywordFilter → List String → List KeywordFilter
  | [], _ => []
  | f :: rest, processed =>
      if lowerKw f ∈ processed then outputPass m rest processed
      else ⟨f.keyword, ((m.lookup (lowerKw f)).getD [])⟩ ::
        outputPass m rest (lowerKw f :: processed)

/-- `SubscriberService.mergeKeywordFilters`. -/
def mergeKeywordFilters (existing newFilters : List KeywordFilter) : List KeywordFilter :=
  outputPass (buildMap (existing ++ newFilters)) (existing ++ newFilters) []

/-- A store mutation performed through `DatabaseService`
(`saveSubscriberWithFilters` / `removeSubscriber`). -/
inductive StoreOp where
  | save (channelId : String) (filters : List KeywordFilter) (merge : Bool)
  | remove
  deriving Repr, DecidableEq

/-- Effect of one store operation on a user's persisted record
(`saveSubscriberWithFilters` upserts `{channelId, keywordFilters}`;
`removeSubscriber` deletes the record). -/
def applyOp : Option SubscriberConfig → StoreOp → Option SubscriberConfig
  | _, StoreOp.save c fs _ => some ⟨c, fs⟩
  | _, StoreOp.remove => none

/-- Effect of a sequence of store operations. -/
def applyOps (st : Option SubscriberConfig) (ops : List StoreOp) : Option SubscriberConfig :=
  ops.foldl applyOp st

/-- `SubscriberService.subscribe`, restricted to the one user it touches:
given the user's current record, the caller's channel and requested
filters, return the confirmation value and the store operations issued. -/
def subscribe (existing : Option SubscriberConfig) (channelId : String)
    (keywordFilters : List KeywordFilter) : SubscriberConfig × List StoreOp :=
  let finalKeywordFilters :=
    match existing with
    | some cfg => mergeKeywordFilters cfg.keywordFilters keywordFilters
    | none => keywordFilters
  (⟨channelId, finalKeywordFilters⟩,
    [StoreOp.save channelId finalKeywordFilters existing.isSome])

/-- Localized message-type names used in `removedItems`
(`t === 'buy' ? '收購' : '販售'`). -/
def typeName (t : String) : String :=
  if t = "buy" then "收購" else "販售"

/-- Result record of `SubscriberService.partialUnsubscribe`. -/
structure PartialUnsubResult where
  success : Bool
  remainingCount : Nat
  removedItems : List String
  remainingFilters : List KeywordFilter
  deriving Repr, DecidableEq

/-- The per-filter callback of the keyword-directed branch of
`partialUnsubscribe` (`keywords.length > 0`): `none` models the `null`
entries removed by the trailing `.filter`. -/
def stepKw (keywordsLower messageTypes : List String) (f : KeywordFilter) :
    Option KeywordFilter :=
  if lowerKw f ∈ keywordsLower then
    if messageTypes = [] then none
    else if f.messageTypes.filter (fun t => ¬ t ∈ messageTypes) = [] then none
    else if (f.messageTypes.filter (fun t => ¬ t ∈ messageTypes)).length ≠
        f.messageTypes.length then
      some ⟨f.keyword, f.messageTypes.filter (fun t => ¬ t ∈ messageTypes)⟩
    else some f
  else some f

/-- The `removedItems` entry produced for one filter by the
keyword-directed branch of `partialUnsubscribe`. -/
def removedItemKw (keywordsLower messageTypes : List String) (f : KeywordFilter) :
    Option String :=
  if lowerKw f ∈ keywordsLower then
    if messageTypes = [] then some (f.keyword ++ " (全部)")
    else if f.messageTypes.filter (fun t => ¬ t ∈ messageTypes) = [] then
      some (f.keyword ++ " (全部)")
    else if (f.messageTypes.filter (fun t => ¬ t ∈ messageTypes)).length ≠
        f.messageTypes.length then
      some (f.keyword ++ " (" ++ String.intercalate ", "
        ((f.messageTypes.filter (fun t => t ∈ messageTypes)).map typeName) ++ ")")
    else none
  else none

/-- The per-filter callback of the types-only branch of
`partialUnsubscribe` (`keywords` empty, `messageTypes` non-empty). -/
def stepAll (messageTypes : List String) (f : KeywordFilter) : Option KeywordFilter :=
  if f.messageTypes.filter (fun t => ¬ t ∈ messageTypes) = [] then none
  else if (f.messageTypes.filter (fun t => ¬ t ∈ messageTypes)).length ≠
      f.messageTypes.length then
    some ⟨f.keyword, f.messageTypes.filter (fun t => ¬ t ∈ messageTypes)⟩
  else some f

/-- The `removedItems` entry produced for one filter by the types-only
branch of `partialUnsubscribe`. -/
def removedItemAll (messageTypes : List String) (f : KeywordFilter) : Option String :=
  if f.messageTypes.filter (fun t => ¬ t ∈ messageTypes) = [] then
    some (f.keyword ++ " (全部)")
  else if (f.messageTypes.filter (fun t => ¬ t ∈ messageTypes)).length ≠
      f.messageTypes.length then
    some (f.keyword ++ " (" ++ String.intercalate ", "
      ((f.messageTypes.filter (fun t => t ∈ messageTypes)).map typeName) ++ ")")
  else none

/-- Shared tail of `partialUnsubscribe` once `updatedFilters`,
`hasChanges` and `removedItems` are known (in the source `hasChanges` is
set exactly when an entry is pushed onto `removedItems`, so it equals
`removedItems ≠ []`). -/
def finishPartial (cfg : SubscriberConfig) (updatedFilters : List KeywordFilter)
    (removedItems : List String) : PartialUnsubResult × List StoreOp :=
  if removedItems = [] then
    (⟨false, cfg.keywordFilters.length, [], cfg.keywordFilters⟩, [])
  else if updatedFilters = [] then
    (⟨true, 0, removedItems, []⟩, [StoreOp.remove])
  else
    (⟨true, updatedFilters.length, removedItems, updatedFilters⟩,
      [StoreOp.save cfg.channelId updatedFilters false])

/-- `SubscriberService.partialUnsubscribe`, restricted to the one user it
touches. -/
def partialUnsubscribe (existing : Option SubscriberConfig)
    (keywords messageTypes : List String) : PartialUnsubResult × List StoreOp :=
  match existing with
  | none => (⟨false, 0, [], []⟩, [])
  | some cfg =>
      if cfg.keywordFilters = [] then (⟨false, 0, [], []⟩, [])
      else if keywords ≠ [] then
        let keywordsLower := keywords.map strLower
        finishPartial cfg
          (cfg.keywordFilters.filterMap (stepKw keywordsLower messageTypes))
          (cfg.keywordFilters.filterMap (removedItemKw keywordsLower messageTypes))
      else if messageTypes = [] then
        (⟨false, cfg.keywordFilters.length, [], cfg.keywordFilters⟩, [])
      else
        finishPartial cfg
          (cfg.keywordFilters.filterMap (stepAll messageTypes))
          (cfg.keywordFilters.filterMap (removedItemAll messageTypes))

/-! ## Fan-out dispatcher (`WebSocketService.broadcastToDiscord`) -/

/-- The `payload` of a `new_message` frame (`ArtaleMessage['payload']`). -/
structure BroadcastPayload where
  message_type : String
  channel : String
  player_name : String
  player_id : String
  content : String
  deriving Repr, DecidableEq

/-- Is `needle` an initial segment of the second list? (helper for the
substring test of `String.prototype.includes`). -/
def matchAt : List Char → List Char → Bool
  | [], _ => true
  | _ :: _, [] => false
  | a :: as, b :: bs => if a = b then matchAt as bs else false

/-- Does `needle` occur contiguously in the second list? -/
def containsSub : List Char → List Char → Bool
  | needle, [] => matchAt needle []
  | needle, c :: rest => matchAt needle (c :: rest) || containsSub needle rest

/-- Model of `s.includes(sub)` on JavaScript strings. -/
def strIncludes (s sub : String) : Bool :=
  containsSub sub.data s.data

/-- The match test performed for one keyword filter inside
`broadcastToDiscord`: the event's `message_type` is in the filter's
`messageTypes`, and the lower-cased keyword occurs in the lower-cased
`content`. -/
def filterMatches (payload : BroadcastPayload) (f : KeywordFilter) : Bool :=
  f.messageTypes.contains payload.message_type &&
    strIncludes (strLower payload.content) (strLower f.keyword)

/-- The localized type text used in a match reason
(`payload.message_type === 'buy' ? '收購' : '販售'`). -/
def reasonTypeText (payload : BroadcastPayload) : String :=
  if payload.message_type = "buy" then "收購" else "販售"

/-- The `matchedReasons` list collected for one subscriber: one
`"<keyword> (<type text>)"` entry per matching filter, in filter order.
(The source guards the loop with `keywordFilters.length > 0`, which is
behaviour-equivalent to iterating an empty list.) -/
def matchedReasons (payload : BroadcastPayload) (filters : List KeywordFilter) :
    List String :=
  filters.filterMap fun f =>
    if filterMatches payload f then
      some (f.keyword ++ " (" ++ reasonTypeText payload ++ ")")
    else none

/-- Append a matching user under its channel in the insertion-ordered
`channelToUsersWithReasons` map. -/
def groupAdd (acc : List (String × List (String × String)))
    (channelId : String) (entry : String × String) :
    List (String × List (String × String)) :=
  match acc with
  | [] => [(channelId, [entry])]
  | (c, users) :: rest =>
      if c = channelId then (c, users ++ [entry]) :: rest
      else (c, users) :: groupAdd rest channelId entry

/-- The grouping loop of `broadcastToDiscord`: fan an event out to
`channel → [(userId, joined reasons)]`, including a user iff their
`matchedReasons` list is non-empty. -/
def broadcastDispatch (subscribers : List (String × SubscriberConfig))
    (payload : BroadcastPayload) : List (String × List (String × String)) :=
  subscribers.foldl
    (fun acc su =>
      let reasons := matchedReasons payload su.2.keywordFilters
      if reasons = [] then acc
      else groupAdd acc su.2.channelId (su.1, String.intercalate ", " reasons))
    []

/-! ## Feed listener (`WebSocketService` dedup and reconnect) -/

/-- The string hashed by `generateMessageId`:
`player_id-content-message_type-channel`. -/
def messageData (p : BroadcastPayload) : String :=
  p.player_id ++ "-" ++ p.content ++ "-" ++ p.message_type ++ "-" ++ p.channel

/-- `WebSocketService.generateMessageId` for a present payload, over an
abstract digest function standing for MD5 (`hash` is a parameter so that
nothing is assumed about the digest beyond being a function of its
input). -/
def generateMessageId (hash : String → String) (p : BroadcastPayload) : String :=
  hash (messageData p)

/-- `WebSocketService.cleanupProcessedMessages`: once the recent-set holds
more than 1000 ids, keep only the 500 most recently inserted. -/
def cleanupProcessedMessages (st : List String) : List String :=
  if st.length > 1000 then st.drop (st.length - 500) else st

/-- The `new_message` arm of `WebSocketService.handleMessage`: drop the
frame if its dedup id is already known, otherwise record the id, run the
cleanup, and forward the payload to the dispatcher. Returns the new
recent-set and the payloads forwarded. -/
def handleNewMessage (hash : String → String) (st : List String)
    (p : BroadcastPayload) : List String × List BroadcastPayload :=
  let messageId := generateMessageId hash p
  if messageId ∈ st then (st, [])
  else (cleanupProcessedMessages (st ++ [messageId]), [p])

/-- `WebSocketService.baseReconnectDelay` (milliseconds). -/
def baseReconnectDelay : Nat := 5000

/-- `WebSocketService.maxReconnectDelay` (milliseconds). -/
def maxReconnectDelay : Nat := 30000

/-- `WebSocketService.calculateReconnectDelay` as a function of the
current `reconnectAttempts` counter. -/
def calculateReconnectDelay (reconnectAttempts : Nat) : Nat :=
  min (baseReconnectDelay * 2 ^ reconnectAttempts) maxReconnectDelay

/-! ## Reference (spec-side) merge definition, for the refinement claim -/

/-- All message types attached to a given lower-cased keyword across a
filter list, in filter order (spec side). -/
def typesOf (fs : List KeywordFilter) (k : String) : List String :=
  ((fs.filter (fun f => lowerKw f = k)).map KeywordFilter.messageTypes).flatten

/-- First-seen-order union of two type lists (spec side: "the set union of
the existing filter's message types and the requested filter's message
types"). -/
def orderedUnion (a b : List String) : List String :=
  setAddAll (setAddAll [] a) b

/-- Keep the first occurrence of every lower-cased keyword (spec side:
"existing keywords first, in their original order and original casing,
followed by keywords that appear only in the request, in request
order"). -/
def dedupLower : List KeywordFilter → List String → List KeywordFilter
  | [], _ => []
  | f :: rest, seen =>
      if lowerKw f ∈ seen then dedupLower rest seen
      else f :: dedupLower rest (lowerKw f :: seen)

/-- The merge as the spec states it: first occurrences of the lower-cased
keywords of `existing ++ req`, each carrying the union of every type
attached to that keyword in `existing` and in `req`. -/
def specMergeKeywordFilters (existing req : List KeywordFilter) : List KeywordFilter :=
  (dedupLower (existing ++ req) []).map fun f =>
    ⟨f.keyword, orderedUnion (typesOf existing (lowerKw f)) (typesOf req (lowerKw f))⟩

/-- The record invariant of §3: no two filter entries share a lower-cased
keyword. -/
def noDupLower (fs : List KeywordFilter) : Prop :=
  List.Pairwise (fun a b => lowerKw a ≠ lowerKw b) fs

instance (fs : List KeywordFilter) : Decidable (noDupLower fs) := by
  unfold noDupLower; infer_instance

/-- The filters held in the store for a user (`[]` when no record
exists). -/
def storedFilters (st : Option SubscriberConfig) : List KeywordFilter :=
  match st with
  | none => []
  | some cfg => cfg.keywordFilters

/-- The subscriber table of the §8 fan-out scenario: user A subscribed to
劍 and 盾 for `buy`, user B holding a record with an empty filter list. -/
def scenarioSubscribers : List (String × SubscriberConfig) :=
  [("A", ⟨"channelA", [⟨"劍", ["buy"]⟩, ⟨"盾", ["buy"]⟩]⟩),
   ("B", ⟨"channelB", []⟩)]

/-- The `buy` event of the §8 fan-out scenario, whose content contains
劍. -/
def scenarioEvent : BroadcastPayload :=
  ⟨"buy", "ch1", "player", "pid", "收 劍 +7"⟩

example : mergeKeywordFilters
    [⟨"劍", ["buy"]⟩, ⟨"斧", ["buy"]⟩]
    [⟨"盾", ["sell"]⟩, ⟨"劍", ["sell"]⟩] =
    [⟨"劍", ["buy", "sell"]⟩, ⟨"斧", ["buy"]⟩, ⟨"盾", ["sell"]⟩] := by
  decide

example : (partialUnsubscribe
    (some ⟨"channel1", [⟨"劍", ["buy", "sell"]⟩, ⟨"盾", ["buy"]⟩]⟩)
    ["盾"] []).1.remainingFilters = [⟨"劍", ["buy", "sell"]⟩] := by
  decide

/-! ## Supporting lemmas -/

theorem applyOps_nil (st : Option SubscriberConfig) : applyOps st [] = st := rfl

theorem mem_cleanup_last (st : List String) (id : String) :
    id ∈ cleanupProcessedMessages (st ++ [id]) := by
  unfold cleanupProcessedMessages
  split
  · next hlen =>
      have hle : (st ++ [id]).length - 500 ≤ st.length := by
        simp only [List.length_append, List.length_cons, List.length_nil]
        omega
      rw [List.drop_append_of_le_length hle]
      exact List.mem_append_right _ (List.mem_singleton.mpr rfl)
  · exact List.mem_append_right _ (List.mem_singleton.mpr rfl)

/-- A subscriber with no matching filter leaves the dispatch grouping
unchanged wherever it sits in the subscriber table. -/
theorem broadcastDispatch_skip (subs₁ subs₂ : List (String × SubscriberConfig))
    (u : String) (cfg : SubscriberConfig) (payload : BroadcastPayload)
    (h : matchedReasons payload cfg.keywordFilters = []) :
    broadcastDispatch (subs₁ ++ (u, cfg) :: subs₂) payload =
      broadcastDispatch (subs₁ ++ subs₂) payload := by
  unfold broadcastDispatch
  rw [List.foldl_append, List.foldl_append, List.foldl_cons]
  simp [h]

/-- When something was removed, the filters reported (and persisted) by
the tail of `partialUnsubscribe` are exactly the updated filters. -/
theorem finishPartial_remaining (cfg : SubscriberConfig)
    (upd : List KeywordFilter) (rem : List String) (h : rem ≠ []) :
    (finishPartial cfg upd rem).1.remainingFilters = upd := by
  unfold finishPartial
  rw [if_neg h]
  split
  · next hu => simp [hu]
  · rfl

/-- Every save issued by the tail of `partialUnsubscribe` reuses the
record's stored channelId and is not a merge. -/
theorem save_mem_finishPartial (cfg : SubscriberConfig)
    (upd : List KeywordFilter) (rem : List String) (c : String)
    (fs : List KeywordFilter) (m : Bool)
    (h : StoreOp.save c fs m ∈ (finishPartial cfg upd rem).2) :
    c = cfg.channelId ∧ m = false := by
  unfold finishPartial at h
  split at h
  · simp at h
  · split at h
    · simp at h
    · simp at h
      tauto

/-- A successful removal that leaves no filters deletes the record. -/
theorem finishPartial_deletes (cfg : SubscriberConfig)
    (upd : List KeywordFilter) (rem : List String)
    (hs : (finishPartial cfg upd rem).1.success = true)
    (hr : (finishPartial cfg upd rem).1.remainingFilters = []) :
    (finishPartial cfg upd rem).2 = [StoreOp.remove] ∧
    (finishPartial cfg upd rem).1.remainingCount = 0 := by
  unfold finishPartial at hs hr ⊢
  split at hs
  · simp at hs
  · split at hs
    · next h1 h2 => simp [h1, h2]
    · next h1 h2 =>
        rw [if_neg h1, if_neg h2] at hr
        exact absurd hr h2

/-- A filter all of whose types are being subtracted can never be the
output of the per-filter step of the keyword-directed branch. -/
theorem stepKw_ne_emptied (kwsL mts : List String) (f : KeywordFilter)
    (htarget : lowerKw f ∈ kwsL)
    (htypes : f.messageTypes.filter (fun t => ¬ t ∈ mts) = []) :
    ∀ g : KeywordFilter, stepKw kwsL mts g ≠ some f := by
  intro g hg
  unfold stepKw at hg
  split at hg
  · split at hg
    · exact Option.noConfusion hg
    · split at hg
      · exact Option.noConfusion hg
      · split at hg
        · next hrem hlen =>
            have hf := Option.some.inj hg
            have : f.messageTypes = g.messageTypes.filter (fun t => ¬ t ∈ mts) :=
              congrArg KeywordFilter.messageTypes hf.symm
            rcases List.exists_mem_of_ne_nil _ hrem with ⟨t, ht⟩
            have ht' : t ∈ f.messageTypes := this ▸ ht
            have h1 := (List.filter_eq_nil_iff.mp htypes) t ht'
            have h2 := List.of_mem_filter ht
            simp at h1 h2
            exact h2 h1
        · next hrem hlen =>
            have hf := Option.some.inj hg
            subst hf
            exact hrem htypes
  · next hout =>
      have hf := Option.some.inj hg
      subst hf
      exact hout htarget

/-- Same, for the types-only branch. -/
theorem stepAll_ne_emptied (mts : List String) (f : KeywordFilter)
    (htypes : f.messageTypes.filter (fun t => ¬ t ∈ mts) = []) :
    ∀ g : KeywordFilter, stepAll mts g ≠ some f := by
  intro g hg
  unfold stepAll at hg
  split at hg
  · exact Option.noConfusion hg
  · split at hg
    · next hrem hlen =>
        have hf := Option.some.inj hg
        have : f.messageTypes = g.messageTypes.filter (fun t => ¬ t ∈ mts) :=
          congrArg KeywordFilter.messageTypes hf.symm
        rcases List.exists_mem_of_ne_nil _ hrem with ⟨t, ht⟩
        have ht' : t ∈ f.messageTypes := this ▸ ht
        have h1 := (List.filter_eq_nil_iff.mp htypes) t ht'
        have h2 := List.of_mem_filter ht
        simp at h1 h2
        exact h2 h1
    · next hrem hlen =>
        have hf := Option.some.inj hg
        subst hf
        exact hrem htypes

/-- A targeted filter all of whose types are subtracted contributes a
removal notice in the keyword-directed branch. -/
theorem removedItemKw_isSome (kwsL mts : List String) (f : KeywordFilter)
    (htarget : lowerKw f ∈ kwsL)
    (htypes : f.messageTypes.filter (fun t => ¬ t ∈ mts) = []) :
    (removedItemKw kwsL mts f).isSome = true := by
  unfold removedItemKw
  rw [if_pos htarget]
  by_cases hm : mts = []
  · rw [if_pos hm]
    rfl
  · rw [if_neg hm, if_pos htypes]
    rfl

/-- Same, for the types-only branch. -/
theorem removedItemAll_isSome (mts : List String) (f : KeywordFilter)
    (htypes : f.messageTypes.filter (fun t => ¬ t ∈ mts) = []) :
    (removedItemAll mts f).isSome = true := by
  unfold removedItemAll
  rw [if_pos htypes]
  rfl

theorem filterMap_ne_nil_of_isSome {α β : Type} (g : α → Option β)
    (l : List α) (a : α) (ha : a ∈ l) (hs : (g a).isSome = true) :
    l.filterMap g ≠ [] := by
  intro hnil
  rcases Option.isSome_iff_exists.mp hs with ⟨b, hb⟩
  have : b ∈ l.filterMap g := List.mem_filterMap.mpr ⟨a, ha, hb⟩
  rw [hnil] at this
  exact List.not_mem_nil b this

theorem lookup_append (l₁ l₂ : KeywordMap) (k : String) :
    (l₁ ++ l₂).lookup k = ((l₁.lookup k).or (l₂.lookup k)) := by
  induction l₁ with
  | nil => simp
  | cons a l ih => by_cases h : k == a.1 <;> simp [List.lookup, h, ih]

theorem lookup_mapSet_self (m : KeywordMap) (k : String) (v : List String) :
    (mapSet m k v).lookup k = some v := by
  induction m with
  | nil => simp [mapSet, List.lookup]
  | cons a rest ih =>
      obtain ⟨k', v'⟩ := a
      by_cases h : k' = k
      · simp [mapSet, h, List.lookup]
      · have hb : (k == k') = false := beq_eq_false_iff_ne.mpr (Ne.symm h)
        simp [mapSet, h, List.lookup, hb, ih]

theorem lookup_mapSet_ne (m : KeywordMap) (k k' : String) (v : List String)
    (h : k ≠ k') : (mapSet m k' v).lookup k = m.lookup k := by
  have hb : (k == k') = false := beq_eq_false_iff_ne.mpr h
  induction m with
  | nil => simp [mapSet, List.lookup, hb]
  | cons a rest ih =>
      obtain ⟨a1, a2⟩ := a
      by_cases ha : a1 = k'
      · subst ha
        simp [mapSet, List.lookup, hb]
      · simp [mapSet, ha, List.lookup, ih]

theorem setAddAll_append (s a b : List String) :
    setAddAll s (a ++ b) = setAddAll (setAddAll s a) b :=
  List.foldl_append setAdd s a b

theorem typesOf_cons (f : KeywordFilter) (fs : List KeywordFilter) (k : String) :
    typesOf (f :: fs) k =
      if lowerKw f = k then f.messageTypes ++ typesOf fs k else typesOf fs k := by
  by_cases h : lowerKw f = k <;> simp [typesOf, h]

theorem typesOf_append (fs₁ fs₂ : List KeywordFilter) (k : String) :
    typesOf (fs₁ ++ fs₂) k = typesOf fs₁ k ++ typesOf fs₂ k := by
  simp [typesOf]

theorem lookup_addFilterToMap_ne (m : KeywordMap) (f : KeywordFilter)
    (k : String) (hk : k ≠ lowerKw f) :
    (addFilterToMap m f).lookup k = m.lookup k := by
  unfold addFilterToMap
  cases hm : m.lookup (lowerKw f) with
  | none =>
      rw [lookup_append]
      have hb : (k == lowerKw f) = false := beq_eq_false_iff_ne.mpr hk
      simp [List.lookup, hb]
  | some ts => exact lookup_mapSet_ne m k (lowerKw f) _ hk

theorem lookup_addFilterToMap_self (m : KeywordMap) (f : KeywordFilter) :
    (addFilterToMap m f).lookup (lowerKw f) =
      some (setAddAll ((m.lookup (lowerKw f)).getD []) f.messageTypes) := by
  unfold addFilterToMap
  cases hm : m.lookup (lowerKw f) with
  | none =>
      rw [lookup_append, hm]
      simp [List.lookup]
  | some ts =>
      simpa using lookup_mapSet_self m (lowerKw f) (setAddAll ts f.messageTypes)

theorem lookup_foldl_addFilter_some (fs : List KeywordFilter) :
    ∀ (m : KeywordMap) (k : String) (ts : List String), m.lookup k = some ts →
      (fs.foldl addFilterToMap m).lookup k = some (setAddAll ts (typesOf fs k)) := by
  induction fs with
  | nil =>
      intro m k ts h
      simpa [typesOf, setAddAll] using h
  | cons f rest ih =>
      intro m k ts h
      rw [List.foldl_cons, typesOf_cons]
      by_cases hk : lowerKw f = k
      · subst hk
        have hstep := lookup_addFilterToMap_self m f
        rw [h] at hstep
        simp only [Option.getD_some] at hstep
        rw [if_pos rfl, ih (addFilterToMap m f) _ _ hstep, setAddAll_append]
      · rw [if_neg hk]
        exact ih (addFilterToMap m f) k ts
          ((lookup_addFilterToMap_ne m f k (fun he => hk he.symm)).trans h)

theorem lookup_foldl_addFilter_none (fs : List KeywordFilter) :
    ∀ (m : KeywordMap) (k : String), m.lookup k = none →
      (fs.foldl addFilterToMap m).lookup k =
        if ∃ f ∈ fs, lowerKw f = k then some (setAddAll [] (typesOf fs k))
        else none := by
  induction fs with
  | nil =>
      intro m k h
      simpa using h
  | cons f rest ih =>
      intro m k h
      rw [List.foldl_cons]
      by_cases hk : lowerKw f = k
      · subst hk
        have hstep := lookup_addFilterToMap_self m f
        rw [h] at hstep
        simp only [Option.getD_none] at hstep
        rw [lookup_foldl_addFilter_some rest (addFilterToMap m f) _ _ hstep]
        rw [if_pos ⟨f, List.mem_cons_self f rest, rfl⟩]
        rw [typesOf_cons, if_pos rfl, setAddAll_append]
      · have hstep : (addFilterToMap m f).lookup k = none :=
          (lookup_addFilterToMap_ne m f k (fun he => hk he.symm)).trans h
        rw [ih (addFilterToMap m f) k hstep, typesOf_cons, if_neg hk]
        by_cases hex : ∃ g ∈ rest, lowerKw g = k
        · rw [if_pos hex, if_pos (by
            rcases hex with ⟨g, hg, hgk⟩
            exact ⟨g, List.mem_cons_of_mem f hg, hgk⟩)]
        · rw [if_neg hex, if_neg (by
            rintro ⟨g, hg, hgk⟩
            rcases List.mem_cons.mp hg with rfl | hg'
            · exact hk hgk
            · exact hex ⟨g, hg', hgk⟩)]

theorem outputPass_eq_map_dedup (m : KeywordMap) :
    ∀ (fs : List KeywordFilter) (processed : List String),
      outputPass m fs processed =
        (dedupLower fs processed).map
          (fun f => ⟨f.keyword, ((m.lookup (lowerKw f)).getD [])⟩) := by
  intro fs
  induction fs with
  | nil => intro processed; rfl
  | cons f rest ih =>
      intro processed
      by_cases h : lowerKw f ∈ processed
      · simp [outputPass, dedupLower, h, ih]
      · simp [outputPass, dedupLower, h, ih]

theorem mem_dedupLower (f : KeywordFilter) :
    ∀ (fs : List KeywordFilter) (seen : List String),
      f ∈ dedupLower fs seen → f ∈ fs := by
  intro fs
  induction fs with
  | nil =>
      intro seen h
      simp [dedupLower] at h
  | cons g rest ih =>
      intro seen h
      by_cases hg : lowerKw g ∈ seen
      · rw [dedupLower, if_pos hg] at h
        exact List.mem_cons_of_mem g (ih _ h)
      · rw [dedupLower, if_neg hg] at h
        rcases List.mem_cons.mp h with rfl | h'
        · exact List.mem_cons_self f rest
        · exact List.mem_cons_of_mem g (ih _ h')

/-- The output loop of the merge never emits the same lower-cased keyword
twice, and never emits a keyword it was told is already processed. -/
theorem pairwise_outputPass (m : KeywordMap) :
    ∀ (fs : List KeywordFilter) (processed : List String),
      List.Pairwise (fun a b => lowerKw a ≠ lowerKw b) (outputPass m fs processed) ∧
      ∀ g ∈ outputPass m fs processed, ¬ lowerKw g ∈ processed := by
  intro fs
  induction fs with
  | nil =>
      intro processed
      exact ⟨List.Pairwise.nil, by simp [outputPass]⟩
  | cons f rest ih =>
      intro processed
      by_cases h : lowerKw f ∈ processed
      · rw [outputPass, if_pos h]
        exact ih processed
      · rw [outputPass, if_neg h]
        rcases ih (lowerKw f :: processed) with ⟨hpair, hnotin⟩
        refine ⟨List.Pairwise.cons ?_ hpair, ?_⟩
        · intro g hg
          have := hnotin g hg
          simp only [List.mem_cons, not_or] at this
          exact fun he => this.1 (he.symm)
        · intro g hg
          rcases List.mem_cons.mp hg with rfl | hg'
          · exact h
          · have := hnotin g hg'
            simp only [List.mem_cons, not_or] at this
            exact this.2

/-- The keyword-directed removal step keeps the keyword of whatever it
lets through. -/
theorem stepKw_preserves_lower (kwsL mts : List String) (g h : KeywordFilter)
    (hs : stepKw kwsL mts g = some h) : lowerKw h = lowerKw g := by
  unfold stepKw at hs
  split at hs
  · split at hs
    · exact Option.noConfusion hs
    · split at hs
      · exact Option.noConfusion hs
      · split at hs
        · rw [← Option.some.inj hs]
          rfl
        · rw [← Option.some.inj hs]
  · rw [← Option.some.inj hs]

/-- The types-only removal step keeps the keyword of whatever it lets
through. -/
theorem stepAll_preserves_lower (mts : List String) (g h : KeywordFilter)
    (hs : stepAll mts g = some h) : lowerKw h = lowerKw g := by
  unfold stepAll at hs
  split at hs
  · exact Option.noConfusion hs
  · split at hs
    · rw [← Option.some.inj hs]
      rfl
    · rw [← Option.some.inj hs]

/-- Removing entries through a per-filter step that keeps keywords cannot
introduce duplicate lower-cased keywords. -/
theorem noDupLower_filterMap (step : KeywordFilter → Option KeywordFilter)
    (hpres : ∀ g h, step g = some h → lowerKw h = lowerKw g)
    (l : List KeywordFilter) (hl : noDupLower l) :
    noDupLower (l.filterMap step) := by
  unfold noDupLower at hl ⊢
  rw [List.pairwise_filterMap]
  refine hl.imp ?_
  intro a b hab
  intro x hx y hy
  rw [hpres a x hx, hpres b y hy]
  exact hab

/-- The tail of `partialUnsubscribe` returns duplicate-free filters when
both its candidate outputs are duplicate-free. -/
theorem noDupLower_finishPartial (cfg : SubscriberConfig)
    (upd : List KeywordFilter) (rem : List String)
    (h1 : noDupLower cfg.keywordFilters) (h2 : noDupLower upd) :
    noDupLower (finishPartial cfg upd rem).1.remainingFilters := by
  unfold finishPartial
  split
  · exact h1
  · split
    · exact List.Pairwise.nil
    · exact h2

/-! ## Claim theorems -/

/-- C3: the merge performed by subscribe on an existing record equals the
reference definition from the spec: first occurrences of the lower-cased
keywords of the existing record then of the request (original casing and
order kept), each carrying the ordered union of every message type given
for that keyword on either side. -/
theorem claim_C3_merge_matches_reference (existing req : List KeywordFilter) :
    mergeKeywordFilters existing req = specMergeKeywordFilters existing req := by
  unfold mergeKeywordFilters specMergeKeywordFilters
  rw [outputPass_eq_map_dedup]
  apply List.map_congr_left
  intro f hf
  have hmem : f ∈ existing ++ req := mem_dedupLower f _ _ hf
  have hex : ∃ g ∈ existing ++ req, lowerKw g = lowerKw f := ⟨f, hmem, rfl⟩
  have h := lookup_foldl_addFilter_none (existing ++ req) [] (lowerKw f) rfl
  rw [if_pos hex] at h
  unfold buildMap
  rw [h]
  simp only [Option.getD_some]
  congr 1
  rw [typesOf_append, setAddAll_append]
  rfl

/-- C1 counterexample: subscribe for a user with no prior record stores
the request verbatim, so a request repeating the lower-cased keyword a
produces a persisted record with two entries whose lower-cased keywords
are equal. -/
theorem claim_C1_counterexample :
    ¬ noDupLower
      (subscribe none "c" [⟨"a", ["buy"]⟩, ⟨"A", ["sell"]⟩]).1.keywordFilters ∧
    applyOps none (subscribe none "c" [⟨"a", ["buy"]⟩, ⟨"A", ["sell"]⟩]).2 =
      some ⟨"c", [⟨"a", ["buy"]⟩, ⟨"A", ["sell"]⟩]⟩ := by
  decide

/-- C1 amended: every merge output is free of duplicate lower-cased
keywords (so the invariant holds after subscribe onto an existing record,
with repeated keywords unioned into one entry), and partialUnsubscribe
preserves the invariant; but subscribe creating a record for a user with
no prior record stores the request verbatim, so the invariant can fail
exactly there. -/
theorem claim_C1_no_duplicate_lower_keywords :
    (∀ existing req : List KeywordFilter,
      noDupLower (mergeKeywordFilters existing req)) ∧
    (∀ (cfg : SubscriberConfig) (c : String) (req : List KeywordFilter),
      noDupLower (subscribe (some cfg) c req).1.keywordFilters) ∧
    (∀ (cfg : SubscriberConfig) (kws mts : List String),
      noDupLower cfg.keywordFilters →
      noDupLower (partialUnsubscribe (some cfg) kws mts).1.remainingFilters) := by
  have hmerge : ∀ existing req : List KeywordFilter,
      noDupLower (mergeKeywordFilters existing req) := by
    intro existing req
    exact (pairwise_outputPass (buildMap (existing ++ req)) (existing ++ req) []).1
  refine ⟨hmerge, fun cfg c req => hmerge cfg.keywordFilters req, ?_⟩
  intro cfg kws mts hdup
  unfold partialUnsubscribe
  dsimp only
  by_cases h0 : cfg.keywordFilters = []
  · rw [if_pos h0]
    exact List.Pairwise.nil
  · rw [if_neg h0]
    by_cases h1 : kws = []
    · rw [if_neg (fun hne => hne h1)]
      by_cases h2 : mts = []
      · rw [if_pos h2]
        exact hdup
      · rw [if_neg h2]
        exact noDupLower_finishPartial cfg _ _ hdup
          (noDupLower_filterMap _ (stepAll_preserves_lower mts) _ hdup)
    · rw [if_pos h1]
      exact noDupLower_finishPartial cfg _ _ hdup
        (noDupLower_filterMap _ (stepKw_preserves_lower (kws.map strLower) mts) _ hdup)

/-- C1 amended witness: a concrete partial unsubscribe on a
duplicate-free record stays duplicate-free. -/
theorem claim_C1_no_duplicate_lower_keywords_witness :
    noDupLower (partialUnsubscribe (some ⟨"ch", [⟨"劍", ["buy", "sell"]⟩]⟩)
      ["劍"] ["buy"]).1.remainingFilters :=
  claim_C1_no_duplicate_lower_keywords.2.2
    ⟨"ch", [⟨"劍", ["buy", "sell"]⟩]⟩ ["劍"] ["buy"] (by decide)

/-- C6: the reconnect delay after a close is
`min(base * 2^attempt, cap)`; with base 5000 and cap 30000 attempts 0..5
yield 5000, 10000, 20000, 30000, 30000, 30000. -/
theorem claim_C6_reconnect_delay :
    (∀ attempt : Nat, calculateReconnectDelay attempt =
      min (baseReconnectDelay * 2 ^ attempt) maxReconnectDelay) ∧
    calculateReconnectDelay 0 = 5000 ∧
    calculateReconnectDelay 1 = 10000 ∧
    calculateReconnectDelay 2 = 20000 ∧
    calculateReconnectDelay 3 = 30000 ∧
    calculateReconnectDelay 4 = 30000 ∧
    calculateReconnectDelay 5 = 30000 :=
  ⟨fun _ => rfl, by decide, by decide, by decide, by decide, by decide, by decide⟩

/-- C8: calling partialUnsubscribe with both the keywords and the
messageTypes sequences empty reports failure, issues no store operation
(so the store is unchanged), and returns the user's filters as they were
before the call. -/
theorem claim_C8_empty_partial_unsubscribe_noop (st : Option SubscriberConfig) :
    (partialUnsubscribe st [] []).1.success = false ∧
    (partialUnsubscribe st [] []).2 = [] ∧
    applyOps st (partialUnsubscribe st [] []).2 = st ∧
    (partialUnsubscribe st [] []).1.remainingFilters = storedFilters st := by
  match st with
  | none => exact ⟨rfl, rfl, rfl, rfl⟩
  | some cfg =>
      by_cases h : cfg.keywordFilters = []
      · simp [partialUnsubscribe, h, storedFilters, applyOps_nil]
      · simp [partialUnsubscribe, h, storedFilters, applyOps_nil]

/-- C2 counterexample: in the §8 scenario the fan-out contains only A's
channel (with A's reason 劍 (收購)); B's channel, whose record has an
empty keyword filter list, is not dispatched to at all. -/
theorem claim_C2_counterexample :
    broadcastDispatch scenarioSubscribers scenarioEvent =
      [("channelA", [("A", "劍 (收購)")])] ∧
    ¬ ("channelB" ∈ (broadcastDispatch scenarioSubscribers scenarioEvent).map Prod.fst) := by
  decide

/-- C2 amended: a subscriber whose record has an empty keyword filter
list is never included in the fan-out (removing them changes nothing); in
the §8 scenario only A's channel is dispatched to, with reason
劍 (收購). -/
theorem claim_C2_empty_filters_not_dispatched :
    (∀ (subs₁ subs₂ : List (String × SubscriberConfig)) (u : String)
      (cfg : SubscriberConfig) (payload : BroadcastPayload),
      cfg.keywordFilters = [] →
      broadcastDispatch (subs₁ ++ (u, cfg) :: subs₂) payload =
        broadcastDispatch (subs₁ ++ subs₂) payload) ∧
    broadcastDispatch scenarioSubscribers scenarioEvent =
      [("channelA", [("A", "劍 (收購)")])] := by
  constructor
  · intro subs₁ subs₂ u cfg payload h
    exact broadcastDispatch_skip subs₁ subs₂ u cfg payload (by simp [h, matchedReasons])
  · decide

/-- C2 amended witness: dropping the empty-filter subscriber B from the
scenario table leaves the dispatch unchanged. -/
theorem claim_C2_empty_filters_not_dispatched_witness :
    broadcastDispatch [("A", ⟨"channelA", [⟨"劍", ["buy"]⟩, ⟨"盾", ["buy"]⟩]⟩),
        ("B", ⟨"channelB", []⟩)] scenarioEvent =
      broadcastDispatch [("A", ⟨"channelA", [⟨"劍", ["buy"]⟩, ⟨"盾", ["buy"]⟩]⟩)]
        scenarioEvent := by
  have h := claim_C2_empty_filters_not_dispatched.1
    [("A", ⟨"channelA", [⟨"劍", ["buy"]⟩, ⟨"盾", ["buy"]⟩]⟩)] [] "B"
    ⟨"channelB", []⟩ scenarioEvent rfl
  simpa using h

/-- C5: two new_message frames whose payloads agree on playerId, content,
messageType and channel dispatch exactly once when processed in
succession: the first is forwarded and the second is dropped because its
dedup id is already in the recent-set. -/
theorem claim_C5_duplicate_frames_dispatch_once (hash : String → String)
    (st : List String) (p₁ p₂ : BroadcastPayload)
    (hpid : p₁.player_id = p₂.player_id) (hc : p₁.content = p₂.content)
    (hmt : p₁.message_type = p₂.message_type) (hch : p₁.channel = p₂.channel)
    (hfresh : generateMessageId hash p₁ ∉ st) :
    (handleNewMessage hash st p₁).2 ++
      (handleNewMessage hash (handleNewMessage hash st p₁).1 p₂).2 = [p₁] := by
  have hid : generateMessageId hash p₁ = generateMessageId hash p₂ := by
    unfold generateMessageId messageData
    rw [hpid, hc, hmt, hch]
  unfold handleNewMessage
  rw [if_neg hfresh, ← hid]
  rw [if_pos (mem_cleanup_last st (generateMessageId hash p₁))]
  rfl

theorem matchAt_iff (n : List Char) : ∀ h : List Char,
    matchAt n h = true ↔ ∃ t, h = n ++ t := by
  induction n with
  | nil =>
      intro h
      simp [matchAt]
  | cons a as ih =>
      intro h
      cases h with
      | nil => simp [matchAt]
      | cons b bs =>
          by_cases hab : a = b
          · subst hab
            simp [matchAt, ih bs]
          · simp only [matchAt, if_neg hab]
            constructor
            · intro h
              exact absurd h Bool.false_ne_true
            · rintro ⟨t, ht⟩
              rw [List.cons_append] at ht
              injection ht with h1 _
              exact absurd h1.symm hab

theorem containsSub_iff (n : List Char) : ∀ h : List Char,
    containsSub n h = true ↔ ∃ pre post, h = pre ++ (n ++ post) := by
  intro h
  induction h with
  | nil =>
      rw [show containsSub n [] = matchAt n [] from rfl, matchAt_iff]
      constructor
      · rintro ⟨t, ht⟩
        exact ⟨[], t, by simpa using ht⟩
      · rintro ⟨pre, post, hp⟩
        have h2 := List.append_eq_nil.mp hp.symm
        exact ⟨post, (List.append_eq_nil.mp h2.2) |> fun hh => by simp [hh.1, hh.2]⟩
  | cons c rest ih =>
      simp only [containsSub, Bool.or_eq_true, matchAt_iff, ih]
      constructor
      · rintro (⟨t, ht⟩ | ⟨pre, post, hp⟩)
        · exact ⟨[], t, by simp [ht]⟩
        · exact ⟨c :: pre, post, by simp [hp]⟩
      · rintro ⟨pre, post, hp⟩
        cases pre with
        | nil => exact Or.inl ⟨post, by simpa using hp⟩
        | cons p ps =>
            simp only [List.cons_append, List.cons.injEq] at hp
            exact Or.inr ⟨ps, post, hp.2⟩

/-- C4: the dispatcher counts a filter as a match iff the event's
messageType is a member of the filter's messageTypes and the filter's
keyword is a case-insensitive substring of the event's content; in
particular the sword/buy filter matches the buy event and not the sell
event of the claim. -/
theorem claim_C4_dispatcher_match_condition :
    (∀ (payload : BroadcastPayload) (f : KeywordFilter),
      filterMatches payload f = true ↔
        payload.message_type ∈ f.messageTypes ∧
        ∃ pre post, (strLower payload.content).data =
          pre ++ ((strLower f.keyword).data ++ post)) ∧
    filterMatches ⟨"buy", "ch", "p", "pid", "Selling Sword+10"⟩
      ⟨"sword", ["buy"]⟩ = true ∧
    filterMatches ⟨"sell", "ch", "p", "pid", "Selling Sword+10"⟩
      ⟨"sword", ["buy"]⟩ = false := by
  refine ⟨?_, by decide, by decide⟩
  intro payload f
  unfold filterMatches strIncludes
  rw [Bool.and_eq_true]
  simp [containsSub_iff]

/-- C9: for a user with no prior record, subscribing kw with buy then kw
with sell yields a single filter for kw whose type set has the same
membership as subscribing in the reverse order, namely buy and sell. -/
theorem claim_C9_merge_type_union_commutative (kw c₁ c₂ : String) :
    ∃ ts₁ ts₂ : List String,
      (subscribe (some (subscribe none c₁ [⟨kw, ["buy"]⟩]).1) c₂
        [⟨kw, ["sell"]⟩]).1.keywordFilters = [⟨kw, ts₁⟩] ∧
      (subscribe (some (subscribe none c₁ [⟨kw, ["sell"]⟩]).1) c₂
        [⟨kw, ["buy"]⟩]).1.keywordFilters = [⟨kw, ts₂⟩] ∧
      ∀ t : String, (t ∈ ts₁ ↔ t ∈ ts₂) ∧ (t ∈ ts₁ ↔ t = "buy" ∨ t = "sell") := by
  refine ⟨["buy", "sell"], ["sell", "buy"], ?_, ?_, ?_⟩
  · simp [subscribe, mergeKeywordFilters, buildMap, addFilterToMap, outputPass,
      setAddAll, setAdd, lowerKw, List.lookup, mapSet]
  · simp [subscribe, mergeKeywordFilters, buildMap, addFilterToMap, outputPass,
      setAddAll, setAdd, lowerKw, List.lookup, mapSet]
  · intro t
    constructor
    · simp only [List.mem_cons, List.not_mem_nil, or_false]
      exact or_comm
    · simp

/-- C10: every save issued by partialUnsubscribe re-persists under the
record's previously stored channelId (and is not a merge), while
subscribe always writes the caller's channelId into the store. -/
theorem claim_C10_partial_unsubscribe_keeps_channel :
    (∀ (cfg : SubscriberConfig) (kws mts : List String) (c : String)
      (fs : List KeywordFilter) (m : Bool),
      StoreOp.save c fs m ∈ (partialUnsubscribe (some cfg) kws mts).2 →
      c = cfg.channelId ∧ m = false) ∧
    (∀ (st : Option SubscriberConfig) (c : String) (fs : List KeywordFilter),
      ∃ fs' : List KeywordFilter,
        (subscribe st c fs).2 = [StoreOp.save c fs' st.isSome] ∧
        applyOps st (subscribe st c fs).2 = some ⟨c, fs'⟩) := by
  constructor
  · intro cfg kws mts c fs m h
    unfold partialUnsubscribe at h
    dsimp only at h
    by_cases h0 : cfg.keywordFilters = []
    · rw [if_pos h0] at h
      simp at h
    · rw [if_neg h0] at h
      by_cases h1 : kws = []
      · rw [if_neg (fun hne => hne h1)] at h
        by_cases h2 : mts = []
        · rw [if_pos h2] at h
          simp at h
        · rw [if_neg h2] at h
          exact save_mem_finishPartial cfg _ _ c fs m h
      · rw [if_pos h1] at h
        exact save_mem_finishPartial cfg _ _ c fs m h
  · intro st c fs
    exact ⟨_, rfl, rfl⟩

/-- C10 witness: a concrete partial unsubscribe that persists reuses the
stored channelId, and a concrete subscribe writes the caller's channel. -/
theorem claim_C10_partial_unsubscribe_keeps_channel_witness :
    (("chan1" : String) = "chan1" ∧ (false = false)) ∧
    ∃ fs' : List KeywordFilter,
      (subscribe none "chan2" [⟨"劍", ["buy"]⟩]).2 =
        [StoreOp.save "chan2" fs' false] ∧
      applyOps none (subscribe none "chan2" [⟨"劍", ["buy"]⟩]).2 =
        some ⟨"chan2", fs'⟩ :=
  ⟨claim_C10_partial_unsubscribe_keeps_channel.1
      ⟨"chan1", [⟨"a", ["buy", "sell"]⟩]⟩ ["a"] ["buy"]
      "chan1" [⟨"a", ["sell"]⟩] false (by decide),
    claim_C10_partial_unsubscribe_keeps_channel.2 none "chan2" [⟨"劍", ["buy"]⟩]⟩

/-- C7: a partialUnsubscribe whose type subtraction empties a targeted
filter's message-type set removes that filter from the remaining
sequence, and a partialUnsubscribe that removes the last remaining filter
deletes the whole record and reports remainingCount 0. -/
theorem claim_C7_emptied_filter_removed_record_deleted :
    (∀ (cfg : SubscriberConfig) (kws mts : List String) (f : KeywordFilter),
      f ∈ cfg.keywordFilters →
      f.messageTypes.filter (fun t => ¬ t ∈ mts) = [] →
      (kws = [] → mts ≠ []) →
      (kws ≠ [] → lowerKw f ∈ kws.map strLower) →
      ¬ f ∈ (partialUnsubscribe (some cfg) kws mts).1.remainingFilters) ∧
    (∀ (cfg : SubscriberConfig) (kws mts : List String),
      (partialUnsubscribe (some cfg) kws mts).1.success = true →
      (partialUnsubscribe (some cfg) kws mts).1.remainingFilters = [] →
      (partialUnsubscribe (some cfg) kws mts).2 = [StoreOp.remove] ∧
      applyOps (some cfg) (partialUnsubscribe (some cfg) kws mts).2 = none ∧
      (partialUnsubscribe (some cfg) kws mts).1.remainingCount = 0) := by
  constructor
  · intro cfg kws mts f hf htypes hkm hkt
    have h0 : cfg.keywordFilters ≠ [] := List.ne_nil_of_mem hf
    unfold partialUnsubscribe
    dsimp only
    rw [if_neg h0]
    by_cases h1 : kws = []
    · have hmts : mts ≠ [] := hkm h1
      rw [if_neg (fun hne => hne h1), if_neg hmts]
      rw [finishPartial_remaining cfg _ _
        (filterMap_ne_nil_of_isSome _ _ f hf (removedItemAll_isSome mts f htypes))]
      intro hmem
      rcases List.mem_filterMap.mp hmem with ⟨g, _, hgf⟩
      exact stepAll_ne_emptied mts f htypes g hgf
    · have htgt : lowerKw f ∈ kws.map strLower := hkt h1
      rw [if_pos h1]
      rw [finishPartial_remaining cfg _ _
        (filterMap_ne_nil_of_isSome _ _ f hf (removedItemKw_isSome _ mts f htgt htypes))]
      intro hmem
      rcases List.mem_filterMap.mp hmem with ⟨g, _, hgf⟩
      exact stepKw_ne_emptied _ mts f htgt htypes g hgf
  · intro cfg kws mts hs hr
    unfold partialUnsubscribe at hs hr ⊢
    dsimp only at hs hr ⊢
    by_cases h0 : cfg.keywordFilters = []
    · rw [if_pos h0] at hs
      exact absurd hs (by simp)
    · rw [if_neg h0] at hs hr ⊢
      by_cases h1 : kws = []
      · rw [if_neg (fun hne => hne h1)] at hs hr ⊢
        by_cases h2 : mts = []
        · rw [if_pos h2] at hs
          exact absurd hs (by simp)
        · rw [if_neg h2] at hs hr ⊢
          rcases finishPartial_deletes cfg _ _ hs hr with ⟨hops, hcount⟩
          exact ⟨hops, by rw [hops]; rfl, hcount⟩
      · rw [if_pos h1] at hs hr ⊢
        rcases finishPartial_deletes cfg _ _ hs hr with ⟨hops, hcount⟩
        exact ⟨hops, by rw [hops]; rfl, hcount⟩

/-- C7 witness: removing buy from 劍 drops the emptied 劍 filter, and
removing the only filter of a one-filter record deletes the record. -/
theorem claim_C7_emptied_filter_removed_record_deleted_witness :
    (¬ KeywordFilter.mk "劍" ["buy"] ∈
      (partialUnsubscribe (some ⟨"ch", [⟨"劍", ["buy"]⟩, ⟨"盾", ["sell"]⟩]⟩)
        ["劍"] ["buy"]).1.remainingFilters) ∧
    ((partialUnsubscribe (some ⟨"ch", [⟨"劍", ["buy"]⟩]⟩) ["劍"] ["buy"]).2 =
        [StoreOp.remove] ∧
      applyOps (some ⟨"ch", [⟨"劍", ["buy"]⟩]⟩)
        (partialUnsubscribe (some ⟨"ch", [⟨"劍", ["buy"]⟩]⟩) ["劍"] ["buy"]).2 = none ∧
      (partialUnsubscribe (some ⟨"ch", [⟨"劍", ["buy"]⟩]⟩)
        ["劍"] ["buy"]).1.remainingCount = 0) :=
  ⟨claim_C7_emptied_filter_removed_record_deleted.1
      ⟨"ch", [⟨"劍", ["buy"]⟩, ⟨"盾", ["sell"]⟩]⟩ ["劍"] ["buy"] ⟨"劍", ["buy"]⟩
      (by decide) (by decide) (by decide) (by decide),
    claim_C7_emptied_filter_removed_record_deleted.2
      ⟨"ch", [⟨"劍", ["buy"]⟩]⟩ ["劍"] ["buy"] (by decide) (by decide)⟩

/-- C5 witness: a concrete duplicated frame starting from an empty
recent-set dispatches exactly once. -/
theorem claim_C5_duplicate_frames_dispatch_once_witness :
    (handleNewMessage (fun s => s) [] ⟨"buy", "ch1", "pn", "pid", "劍 +7"⟩).2 ++
      (handleNewMessage (fun s => s)
        (handleNewMessage (fun s => s) [] ⟨"buy", "ch1", "pn", "pid", "劍 +7"⟩).1
        ⟨"buy", "ch1", "pn", "pid", "劍 +7"⟩).2 =
      [⟨"buy", "ch1", "pn", "pid", "劍 +7"⟩] :=
  claim_C5_duplicate_frames_dispatch_once (fun s => s) []
    ⟨"buy", "ch1", "pn", "pid", "劍 +7"⟩ ⟨"buy", "ch1", "pn", "pid", "劍 +7"⟩
    rfl rfl rfl rfl (List.not_mem_nil _)

end ArtaleBot
